import Mathlib

/-!
Shallow embedding of the buzzer-app room coordinator (`server.ts`).

The server keeps two in-memory maps: `rooms` (room code to `Room`) and
`playerToRoom` (socket id to room code), and mutates them in the socket
event handlers `createRoom`, `joinAsHost`, `joinRoom`, `startRound`,
`stopRound`, `resetRound`, `pressBuzzer`, `getRoomState` and `disconnect`.
JavaScript `Map`s are embedded as association lists that preserve
insertion order: `Map.set` replaces the value in place when the key is
present and appends otherwise, `Map.delete` removes the entry, matching
the semantics of the list operations `mapSet` and `mapDelete` below.
Handlers return the new server state together with the list of emitted
socket events (broadcast targets are irrelevant to the properties proved
here, so events are collected in emission order).
-/

/-- A contestant record (interface `Player` in `src/types/game.ts`):
`buzzTime` is `null` (`none`) until the player buzzes in the current round,
and then holds the elapsed milliseconds since the round started. -/
structure Player where
  id : String
  name : String
  buzzTime : Option Int
deriving DecidableEq, Repr

/-- A room record (interface `Room` in `src/types/game.ts`). `players` is
the JavaScript `Map<string, Player>` as an insertion-ordered association
list; `buzzOrder` is the array of socket ids in buzz order. -/
structure Room where
  id : String
  code : String
  hostId : String
  players : List (String × Player)
  isActive : Bool
  roundStartTime : Option Int
  buzzOrder : List String
deriving DecidableEq, Repr

/-- The outward snapshot (interface `RoomState` in `src/types/game.ts`). -/
structure RoomState where
  code : String
  players : List Player
  isActive : Bool
  buzzOrder : List Player
deriving DecidableEq, Repr

/-- The whole in-memory server state: the `rooms` registry and the
`playerToRoom` binding map of `server.ts`. -/
structure ServerState where
  rooms : List (String × Room)
  playerToRoom : List (String × String)
deriving DecidableEq, Repr

/-- `Map.get`: first value stored under key `k`, if any. -/
def mapGet {β : Type} (k : String) : List (String × β) → Option β
  | [] => none
  | (k1, v) :: rest => if k1 = k then some v else mapGet k rest

/-- `Map.set`: replace in place when the key is present, append otherwise
(JavaScript `Map.set` keeps the original insertion position of a key). -/
def mapSet {β : Type} (k : String) (v : β) : List (String × β) → List (String × β)
  | [] => [(k, v)]
  | (k1, v1) :: rest => if k1 = k then (k, v) :: rest else (k1, v1) :: mapSet k v rest

/-- `Map.delete`: drop the entries stored under key `k`. -/
def mapDelete {β : Type} (k : String) : List (String × β) → List (String × β)
  | [] => []
  | (k1, v1) :: rest => if k1 = k then mapDelete k rest else (k1, v1) :: mapDelete k rest

/-- `roomCode.toUpperCase()`: uppercase every character. -/
def upper (s : String) : String := String.mk (s.data.map Char.toUpper)

/-- `getRoomState` of `server.ts`: players in map order, and `buzzOrder`
resolved to full `Player` records, dropping ids that no longer resolve. -/
def getRoomState (room : Room) : RoomState :=
  { code := room.code
    players := room.players.map Prod.snd
    isActive := room.isActive
    buzzOrder := room.buzzOrder.filterMap (fun i => mapGet i room.players) }

/-- The socket events emitted by the handlers (interface
`ServerToClientEvents` in `src/types/game.ts`). -/
inductive Event where
  | roomCreated (roomCode : String)
  | hostJoined (roomCode : String)
  | roomJoined (roomCode : String) (playerName : String)
  | playerJoined (player : Player)
  | playerLeft (playerId : String)
  | roundStarted (startTime : Int)
  | roundStopped
  | roundReset
  | buzzerPressed (player : Player) (position : Nat)
  | roomSnapshot (state : RoomState)
  | errorMsg (message : String)
deriving DecidableEq, Repr

/-- The `createRoom` handler, after code generation: install a fresh room
under `code` with the caller as host, and bind the caller to it. The
collision-retry loop that produces `code` is modelled separately by
`freshCode` below. -/
def createRoom (sid : String) (code : String) (st : ServerState) : ServerState × List Event :=
  let room : Room :=
    { id := code, code := code, hostId := sid, players := [],
      isActive := false, roundStartTime := none, buzzOrder := [] }
  ({ rooms := mapSet code room st.rooms,
     playerToRoom := mapSet sid code st.playerToRoom },
   [Event.roomCreated code])

/-- The `joinAsHost` handler: rebind an existing room's `hostId` to the
caller (host reconnection), or emit a room-not-found error. -/
def joinAsHost (sid : String) (roomCode : String) (st : ServerState) : ServerState × List Event :=
  match mapGet (upper roomCode) st.rooms with
  | none => (st, [Event.errorMsg "Room not found"])
  | some room =>
    let room2 := { room with hostId := sid }
    ({ rooms := mapSet (upper roomCode) room2 st.rooms,
       playerToRoom := mapSet sid (upper roomCode) st.playerToRoom },
     [Event.hostJoined room.code])

/-- The `joinRoom` handler: add (or overwrite) the caller as a contestant
with a fresh `buzzTime = null` record, or emit a room-not-found error.
Note the handler performs no validation of `playerName`. -/
def joinRoom (sid : String) (roomCode : String) (playerName : String) (st : ServerState) :
    ServerState × List Event :=
  match mapGet (upper roomCode) st.rooms with
  | none => (st, [Event.errorMsg "Room not found"])
  | some room =>
    let player : Player := { id := sid, name := playerName, buzzTime := none }
    let room2 := { room with players := mapSet sid player room.players }
    ({ rooms := mapSet (upper roomCode) room2 st.rooms,
       playerToRoom := mapSet sid (upper roomCode) st.playerToRoom },
     [Event.roomJoined room.code playerName, Event.playerJoined player,
      Event.roomSnapshot (getRoomState room2)])

/-- `room.players.forEach((player) => \x7b player.buzzTime = null \x7d)`. -/
def clearBuzzTimes (ps : List (String × Player)) : List (String × Player) :=
  ps.map (fun kp => (kp.1, { kp.2 with buzzTime := none }))

/-- The `startRound` handler: host-only; activates the round, stamps
`roundStartTime := now`, clears `buzzOrder` and every `buzzTime`. -/
def startRound (sid : String) (now : Int) (st : ServerState) : ServerState × List Event :=
  match mapGet sid st.playerToRoom with
  | none => (st, [])
  | some roomCode =>
    match mapGet roomCode st.rooms with
    | none => (st, [])
    | some room =>
      if room.hostId = sid then
        let room2 := { room with
          isActive := true
          roundStartTime := some now
          buzzOrder := []
          players := clearBuzzTimes room.players }
        ({ st with rooms := mapSet roomCode room2 st.rooms },
         [Event.roundStarted now, Event.roomSnapshot (getRoomState room2)])
      else (st, [])

/-- The `stopRound` handler: host-only; only flips `isActive` to `false`. -/
def stopRound (sid : String) (st : ServerState) : ServerState × List Event :=
  match mapGet sid st.playerToRoom with
  | none => (st, [])
  | some roomCode =>
    match mapGet roomCode st.rooms with
    | none => (st, [])
    | some room =>
      if room.hostId = sid then
        let room2 := { room with isActive := false }
        ({ st with rooms := mapSet roomCode room2 st.rooms },
         [Event.roundStopped, Event.roomSnapshot (getRoomState room2)])
      else (st, [])

/-- The `resetRound` handler: host-only; deactivates, clears
`roundStartTime`, `buzzOrder` and every `buzzTime`. -/
def resetRound (sid : String) (st : ServerState) : ServerState × List Event :=
  match mapGet sid st.playerToRoom with
  | none => (st, [])
  | some roomCode =>
    match mapGet roomCode st.rooms with
    | none => (st, [])
    | some room =>
      if room.hostId = sid then
        let room2 := { room with
          isActive := false
          roundStartTime := none
          buzzOrder := []
          players := clearBuzzTimes room.players }
        ({ st with rooms := mapSet roomCode room2 st.rooms },
         [Event.roundReset, Event.roomSnapshot (getRoomState room2)])
      else (st, [])

/-- The `pressBuzzer` handler: accepted only when the caller is bound to a
room, the round is active with a start time, the caller is a contestant
and has not yet buzzed; then stamps `buzzTime := now - roundStartTime`,
appends the caller to `buzzOrder` and reports the new length as the
position. Every other case returns silently with no event. -/
def pressBuzzer (sid : String) (now : Int) (st : ServerState) : ServerState × List Event :=
  match mapGet sid st.playerToRoom with
  | none => (st, [])
  | some roomCode =>
    match mapGet roomCode st.rooms with
    | none => (st, [])
    | some room =>
      if room.isActive then
        match room.roundStartTime with
        | none => (st, [])
        | some t0 =>
          match mapGet sid room.players with
          | none => (st, [])
          | some player =>
            match player.buzzTime with
            | some _ => (st, [])
            | none =>
              let player2 := { player with buzzTime := some (now - t0) }
              let room2 := { room with
                players := mapSet sid player2 room.players
                buzzOrder := room.buzzOrder ++ [sid] }
              ({ st with rooms := mapSet roomCode room2 st.rooms },
               [Event.buzzerPressed player2 room2.buzzOrder.length,
                Event.roomSnapshot (getRoomState room2)])
      else (st, [])

/-- The `disconnect` handler: a bound host's loss deletes the whole room
and the host's own binding; a bound contestant's loss removes the
contestant, filters it out of `buzzOrder` and drops its binding. -/
def disconnect (sid : String) (st : ServerState) : ServerState × List Event :=
  match mapGet sid st.playerToRoom with
  | none => (st, [])
  | some roomCode =>
    match mapGet roomCode st.rooms with
    | none => (st, [])
    | some room =>
      if room.hostId = sid then
        ({ rooms := mapDelete roomCode st.rooms,
           playerToRoom := mapDelete sid st.playerToRoom },
         [Event.errorMsg "Host left the room"])
      else
        let room2 := { room with
          players := mapDelete sid room.players
          buzzOrder := room.buzzOrder.filter (fun i => i ≠ sid) }
        ({ rooms := mapSet roomCode room2 st.rooms,
           playerToRoom := mapDelete sid st.playerToRoom },
         [Event.playerLeft sid, Event.roomSnapshot (getRoomState room2)])

/-- The fixed 32-character room-code alphabet of `generateRoomCode`
(`"ABCDEFGHJKLMNPQRSTUVWXYZ23456789"`). -/
def alphabet : List Char :=
  ['A','B','C','D','E','F','G','H','J','K','L','M','N','P','Q','R','S','T',
   'U','V','W','X','Y','Z','2','3','4','5','6','7','8','9']

/-- `generateRoomCode` as a function of its six random draws: draw `i` is
`Math.floor(Math.random() * chars.length)`, a number in `0..31`, and the
code is the corresponding six characters of the alphabet. -/
def generateRoomCode (d : Fin 6 → Fin 32) : String :=
  String.mk (List.ofFn fun i => alphabet.get (Fin.cast (by rfl) (d i)))

/-- The collision-retry loop of `createRoom`: given the stream of draw
vectors the random source will produce, keep generating until the code is
not a key of `rooms`; `h` asserts the loop terminates. -/
def freshCode (gen : Nat → Fin 6 → Fin 32) (occupied : Finset String)
    (h : ∃ n, generateRoomCode (gen n) ∉ occupied) : String :=
  generateRoomCode (gen (Nat.find h))

/-- The set of codes of currently live rooms. -/
def liveCodes (st : ServerState) : Finset String :=
  (st.rooms.map Prod.fst).toFinset

/-! ## Small observers used to state concrete facts about a server state -/

/-- The contestant map of the room stored under `c`, or `[]` if none. -/
def playersAt (c : String) (st : ServerState) : List (String × Player) :=
  match mapGet c st.rooms with
  | none => []
  | some room => room.players

/-- The buzz order of the room stored under `c`, or `[]` if none. -/
def buzzOrderAt (c : String) (st : ServerState) : List String :=
  match mapGet c st.rooms with
  | none => []
  | some room => room.buzzOrder

/-- The round start time of the room stored under `c`, if any. -/
def roundStartAt (c : String) (st : ServerState) : Option Int :=
  match mapGet c st.rooms with
  | none => none
  | some room => room.roundStartTime

/-- Whether an event is the error notification. -/
def isError : Event → Bool
  | Event.errorMsg _ => true
  | _ => false

/-- The positions carried by the `buzzerPressed` events of a list, in order:
the ranks granted. -/
def ranksOf (evs : List Event) : List Nat :=
  evs.filterMap fun e =>
    match e with
    | Event.buzzerPressed _ pos => some pos
    | _ => none

/-- `consecFrom s k = [s, s+1, ..., s+k-1]`. -/
def consecFrom (s : Nat) : Nat → List Nat
  | 0 => []
  | k + 1 => s :: consecFrom (s + 1) k

/-- Iterate `pressBuzzer` over a list of attempts `(socket id, time)`,
collecting all emitted events in order. -/
def pressMany : List (String × Int) → ServerState → ServerState × List Event
  | [], st => (st, [])
  | (sid, t) :: rest, st =>
    let r1 := pressBuzzer sid t st
    let r2 := pressMany rest r1.1
    (r2.1, r1.2 ++ r2.2)

/-! ## Concrete demonstration states, built by running the handlers from the
empty initial state -/

/-- The initial server state: no rooms, no bindings. -/
def demoSt0 : ServerState := { rooms := [], playerToRoom := [] }

/-- Socket `h` has created room `AAAAAA`. -/
def demoRoom : ServerState := (createRoom "h" "AAAAAA" demoSt0).1

/-- Contestant `p1` (name `Ann`) has joined room `AAAAAA`. -/
def demoJoined : ServerState := (joinRoom "p1" "AAAAAA" "Ann" demoRoom).1

/-- Three contestants `a`, `b`, `c` joined and the host started a round at
time 100. -/
def demoRound : ServerState :=
  (startRound "h" 100
    ((joinRoom "c" "AAAAAA" "Cal"
      ((joinRoom "b" "AAAAAA" "Bob"
        ((joinRoom "a" "AAAAAA" "Ann" demoRoom).1)).1)).1)).1

/-- In `demoRound`: `a` buzzes at 110 (rank 1). -/
def demoAfterA : ServerState × List Event := pressBuzzer "a" 110 demoRound

/-- Then `b` buzzes at 120 (rank 2). -/
def demoAfterB : ServerState × List Event := pressBuzzer "b" 120 demoAfterA.1

/-- Then `b` disconnects mid-round. -/
def demoAfterDisc : ServerState := (disconnect "b" demoAfterB.1).1

/-- Then `c` buzzes at 130 in the same round. -/
def demoAfterC : ServerState × List Event := pressBuzzer "c" 130 demoAfterDisc

/-- Contestant `a` joined, the round started at 100 and `a` buzzed at 110. -/
def demoBuzzed : ServerState :=
  (pressBuzzer "a" 110
    ((startRound "h" 100 ((joinRoom "a" "AAAAAA" "Ann" demoRoom).1)).1)).1

/-- Then `a` issued `joinRoom` again, while still listed in `buzzOrder`. -/
def demoRejoined : ServerState := (joinRoom "a" "AAAAAA" "Ann" demoBuzzed).1

/-- Then `a` pressed the buzzer a second time. -/
def demoRepressed : ServerState := (pressBuzzer "a" 140 demoRejoined).1

/-- A concrete fair draw stream: enumerate all draw vectors. -/
def genEnum (n : Nat) : Fin 6 → Fin 32 :=
  finFunctionFinEquiv.symm ⟨n % 32 ^ 6, Nat.mod_lt _ (by norm_num)⟩

/-! ## Reachable server states and the buzz-order invariants (C2, C3) -/

/-- Server states reachable from the empty initial state by handler
invocations. The `create` step records that its code is fresh, which the
collision-retry loop guarantees (see `createRoom_code_fresh`). -/
inductive Reachable : ServerState → Prop where
  | init : Reachable { rooms := [], playerToRoom := [] }
  | create (sid code : String) (st : ServerState) : Reachable st →
      mapGet code st.rooms = none → Reachable (createRoom sid code st).1
  | joinHost (sid rc : String) (st : ServerState) : Reachable st →
      Reachable (joinAsHost sid rc st).1
  | join (sid rc pname : String) (st : ServerState) : Reachable st →
      Reachable (joinRoom sid rc pname st).1
  | start (sid : String) (now : Int) (st : ServerState) : Reachable st →
      Reachable (startRound sid now st).1
  | stop (sid : String) (st : ServerState) : Reachable st →
      Reachable (stopRound sid st).1
  | reset (sid : String) (st : ServerState) : Reachable st →
      Reachable (resetRound sid st).1
  | press (sid : String) (now : Int) (st : ServerState) : Reachable st →
      Reachable (pressBuzzer sid now st).1
  | disc (sid : String) (st : ServerState) : Reachable st →
      Reachable (disconnect sid st).1

/-- Reachability restricted to runs in which no connection re-issues
`joinRoom` while its identifier is still in the target room's `buzzOrder`
(the unrestricted relation admits such re-joins, which break the
no-duplicates and elapsed-iff-arrival invariants; see the
counterexamples). -/
inductive ReachableNR : ServerState → Prop where
  | init : ReachableNR { rooms := [], playerToRoom := [] }
  | create (sid code : String) (st : ServerState) : ReachableNR st →
      mapGet code st.rooms = none → ReachableNR (createRoom sid code st).1
  | joinHost (sid rc : String) (st : ServerState) : ReachableNR st →
      ReachableNR (joinAsHost sid rc st).1
  | join (sid rc pname : String) (st : ServerState) : ReachableNR st →
      (∀ room, mapGet (upper rc) st.rooms = some room → sid ∉ room.buzzOrder) →
      ReachableNR (joinRoom sid rc pname st).1
  | start (sid : String) (now : Int) (st : ServerState) : ReachableNR st →
      ReachableNR (startRound sid now st).1
  | stop (sid : String) (st : ServerState) : ReachableNR st →
      ReachableNR (stopRound sid st).1
  | reset (sid : String) (st : ServerState) : ReachableNR st →
      ReachableNR (resetRound sid st).1
  | press (sid : String) (now : Int) (st : ServerState) : ReachableNR st →
      ReachableNR (pressBuzzer sid now st).1
  | disc (sid : String) (st : ServerState) : ReachableNR st →
      ReachableNR (disconnect sid st).1

/-- Per-room invariant: `buzzOrder` entries resolve to current
contestants. -/
def RoomMem (room : Room) : Prop :=
  ∀ sid ∈ room.buzzOrder, (mapGet sid room.players).isSome = true

/-- Per-room invariant maintained on re-join-free runs: `buzzOrder` has no
duplicates, its entries are keys of `players`, the `players` keys are
distinct, and a contestant's `buzzTime` is non-null exactly when it is
listed in `buzzOrder`. -/
def RoomInv (room : Room) : Prop :=
  room.buzzOrder.Nodup ∧
  (∀ sid ∈ room.buzzOrder, (mapGet sid room.players).isSome = true) ∧
  (room.players.map Prod.fst).Nodup ∧
  (∀ sid p, mapGet sid room.players = some p →
    (p.buzzTime ≠ none ↔ sid ∈ room.buzzOrder))

/-- `P` holds of every room of the state. -/
def StAll (P : Room → Prop) (st : ServerState) : Prop :=
  ∀ c room, mapGet c st.rooms = some room → P room


/-! ## Association-list lemmas -/

theorem mapGet_set_self {β : Type} (k : String) (v : β) (m : List (String × β)) :
    mapGet k (mapSet k v m) = some v := by
  induction m with
  | nil => simp [mapSet, mapGet]
  | cons hd tl ih =>
    obtain ⟨k1, v1⟩ := hd
    by_cases h : k1 = k
    · simp [mapSet, h, mapGet]
    · simp [mapSet, h, mapGet, ih]

theorem mapGet_set_ne {β : Type} {k k2 : String} (hne : k2 ≠ k) (v : β)
    (m : List (String × β)) : mapGet k2 (mapSet k v m) = mapGet k2 m := by
  have hne2 : k ≠ k2 := Ne.symm hne
  induction m with
  | nil => simp [mapSet, mapGet, hne2]
  | cons hd tl ih =>
    obtain ⟨k1, v1⟩ := hd
    by_cases h : k1 = k
    · subst h
      simp [mapSet, mapGet, hne2]
    · by_cases h2 : k1 = k2
      · simp [mapSet, h, mapGet, h2, hne, hne2]
      · simp [mapSet, h, mapGet, h2, ih]

theorem mapGet_delete_self {β : Type} (k : String) (m : List (String × β)) :
    mapGet k (mapDelete k m) = none := by
  induction m with
  | nil => simp [mapDelete, mapGet]
  | cons hd tl ih =>
    obtain ⟨k1, v1⟩ := hd
    by_cases h : k1 = k
    · simp [mapDelete, h, ih]
    · simp [mapDelete, h, mapGet, ih]

theorem mapGet_delete_ne {β : Type} {k k2 : String} (hne : k2 ≠ k)
    (m : List (String × β)) : mapGet k2 (mapDelete k m) = mapGet k2 m := by
  have hne2 : k ≠ k2 := Ne.symm hne
  induction m with
  | nil => simp [mapDelete]
  | cons hd tl ih =>
    obtain ⟨k1, v1⟩ := hd
    by_cases h : k1 = k
    · subst h
      simp [mapDelete, mapGet, hne2, ih]
    · by_cases h2 : k1 = k2
      · simp [mapDelete, h, mapGet, h2, hne, hne2]
      · simp [mapDelete, h, mapGet, h2, ih]

theorem mapDelete_of_get_none {β : Type} {k : String} {m : List (String × β)}
    (h : mapGet k m = none) : mapDelete k m = m := by
  induction m with
  | nil => simp [mapDelete]
  | cons hd tl ih =>
    obtain ⟨k1, v1⟩ := hd
    by_cases hk : k1 = k
    · simp [mapGet, hk] at h
    · simp [mapGet, hk] at h
      simp [mapDelete, hk, ih h]

theorem mapGet_clear (k : String) (ps : List (String × Player)) :
    mapGet k (clearBuzzTimes ps) =
      Option.map (fun p => { p with buzzTime := none }) (mapGet k ps) := by
  induction ps with
  | nil => simp [clearBuzzTimes, mapGet]
  | cons hd tl ih =>
    obtain ⟨k1, v1⟩ := hd
    by_cases h : k1 = k
    · simp [clearBuzzTimes, mapGet, h]
    · simpa [clearBuzzTimes, mapGet, h] using ih

theorem mapGet_set_isSome {β : Type} {k2 : String} (k : String) (v : β)
    {m : List (String × β)} (h : (mapGet k2 m).isSome = true) :
    (mapGet k2 (mapSet k v m)).isSome = true := by
  by_cases hk : k2 = k
  · subst hk
    simp [mapGet_set_self]
  · rwa [mapGet_set_ne hk]

theorem mem_keys_of_mapGet_isSome {β : Type} {k : String} {m : List (String × β)}
    (h : (mapGet k m).isSome = true) : k ∈ m.map Prod.fst := by
  induction m with
  | nil => simp [mapGet] at h
  | cons hd tl ih =>
    obtain ⟨k1, v1⟩ := hd
    by_cases hk : k1 = k
    · subst hk
      rw [List.map_cons]
      exact List.mem_cons_self _ _
    · simp [mapGet, hk] at h
      rw [List.map_cons]
      exact List.mem_cons_of_mem _ (ih h)

theorem mapGet_eq_none_of_not_mem_keys {β : Type} {k : String} {m : List (String × β)}
    (h : k ∉ m.map Prod.fst) : mapGet k m = none := by
  induction m with
  | nil => simp [mapGet]
  | cons hd tl ih =>
    obtain ⟨k1, v1⟩ := hd
    simp at h
    have h1 : ¬ k1 = k := fun he => h.1 he.symm
    have h2 : k ∉ tl.map Prod.fst := by simpa using h.2
    simp [mapGet, h1, ih h2]

theorem mem_keys_mapSet {β : Type} {x k : String} {v : β} {m : List (String × β)}
    (h : x ∈ (mapSet k v m).map Prod.fst) : x ∈ m.map Prod.fst ∨ x = k := by
  induction m with
  | nil =>
    simp [mapSet] at h
    exact Or.inr h
  | cons hd tl ih =>
    obtain ⟨k1, v1⟩ := hd
    by_cases hk : k1 = k
    · subst hk
      refine Or.inl ?_
      simp [mapSet] at h ⊢
      exact h
    · simp [mapSet, hk] at h
      rcases h with h | h
      · exact Or.inl (by simp [h])
      · rcases ih (by simpa using h) with h2 | h2
        · refine Or.inl ?_
          simp at h2 ⊢
          exact Or.inr h2
        · exact Or.inr h2

theorem mapSet_keys_nodup {β : Type} (k : String) (v : β) {m : List (String × β)}
    (h : (m.map Prod.fst).Nodup) : ((mapSet k v m).map Prod.fst).Nodup := by
  induction m with
  | nil => simp [mapSet]
  | cons hd tl ih =>
    obtain ⟨k1, v1⟩ := hd
    simp at h
    by_cases hk : k1 = k
    · subst hk
      simpa [mapSet] using h
    · have htl := ih h.2
      have hmem : k1 ∉ (mapSet k v tl).map Prod.fst := by
        intro hm
        rcases mem_keys_mapSet hm with hin | hEq
        · exact absurd hin (by simpa using h.1)
        · exact hk hEq
      simp [mapSet, hk]
      refine ⟨?_, htl⟩
      intro x hx
      exact hmem (List.mem_map.mpr ⟨(k1, x), hx, rfl⟩)

theorem mapDelete_keys_sublist {β : Type} (k : String) (m : List (String × β)) :
    ((mapDelete k m).map Prod.fst).Sublist (m.map Prod.fst) := by
  induction m with
  | nil => simp [mapDelete]
  | cons hd tl ih =>
    obtain ⟨k1, v1⟩ := hd
    by_cases hk : k1 = k
    · simp only [mapDelete, if_pos hk, List.map_cons]
      exact ih.cons _
    · simp only [mapDelete, if_neg hk, List.map_cons]
      exact ih.cons₂ _

theorem mapDelete_keys_nodup {β : Type} (k : String) {m : List (String × β)}
    (h : (m.map Prod.fst).Nodup) : ((mapDelete k m).map Prod.fst).Nodup :=
  (mapDelete_keys_sublist k m).nodup h

theorem clearBuzzTimes_keys (ps : List (String × Player)) :
    (clearBuzzTimes ps).map Prod.fst = ps.map Prod.fst := by
  induction ps with
  | nil => simp [clearBuzzTimes]
  | cons hd tl ih =>
    simp [clearBuzzTimes] at ih ⊢

theorem filter_ne_of_not_mem {sid : String} {l : List String} (h : sid ∉ l) :
    l.filter (fun i => i ≠ sid) = l := by
  refine List.filter_eq_self.mpr ?_
  intro a ha
  simp
  exact fun he => h (he ▸ ha)

theorem clearBuzzTimes_all_none (ps : List (String × Player)) :
    ∀ kp ∈ clearBuzzTimes ps, kp.2.buzzTime = none := by
  intro kp hkp
  unfold clearBuzzTimes at hkp
  rcases List.mem_map.mp hkp with ⟨a, ha, rfl⟩
  rfl

/-- C4: a contestant whose `elapsed` (`buzzTime`) is already set has any
further signal in the same round silently discarded: `pressBuzzer` returns
the state unchanged and emits no event at all — no error, no second rank,
no mutation of `arrivals` (`buzzOrder`), the contestant's `buzzTime`, or
any other room state. -/
theorem pressBuzzer_second_signal_noop (sid : String) (now : Int) (st : ServerState)
    (c : String) (room : Room) (p : Player) (t : Int)
    (hb : mapGet sid st.playerToRoom = some c)
    (hr : mapGet c st.rooms = some room)
    (hp : mapGet sid room.players = some p)
    (ht : p.buzzTime = some t) :
    pressBuzzer sid now st = (st, []) := by
  cases hA : room.isActive with
  | false => simp [pressBuzzer, hb, hr, hA]
  | true =>
    cases h0 : room.roundStartTime with
    | none => simp [pressBuzzer, hb, hr, hA, h0]
    | some t0 => simp [pressBuzzer, hb, hr, hA, h0, hp, ht]

theorem pressBuzzer_second_signal_noop_witness :
    pressBuzzer "a" 140 demoBuzzed = (demoBuzzed, []) :=
  pressBuzzer_second_signal_noop "a" 140 demoBuzzed "AAAAAA" _ _ 10 rfl rfl rfl rfl

/-- C5: a successful `startRound` by the bound host always produces
`arrivals = []` (`buzzOrder`) and `elapsed = null` (`buzzTime`) for every
contestant, regardless of the prior round's content, and sets `roundStart`
(`roundStartTime`) to the current instant with status Active. -/
theorem startRound_fresh_round (sid : String) (now : Int) (st : ServerState)
    (c : String) (room : Room)
    (hb : mapGet sid st.playerToRoom = some c)
    (hr : mapGet c st.rooms = some room)
    (hh : room.hostId = sid) :
    ∃ room2, mapGet c (startRound sid now st).1.rooms = some room2 ∧
      room2.isActive = true ∧
      room2.roundStartTime = some now ∧
      room2.buzzOrder = [] ∧
      (∀ kp ∈ room2.players, kp.2.buzzTime = none) := by
  have hstep : (startRound sid now st).1.rooms =
      mapSet c { room with
        isActive := true
        roundStartTime := some now
        buzzOrder := []
        players := clearBuzzTimes room.players } st.rooms := by
    simp [startRound, hb, hr, hh]
  rw [hstep]
  exact ⟨_, mapGet_set_self _ _ _, rfl, rfl, rfl, clearBuzzTimes_all_none room.players⟩

theorem startRound_fresh_round_witness :
    ∃ room2, mapGet "AAAAAA" (startRound "h" 200 demoRepressed).1.rooms = some room2 ∧
      room2.isActive = true ∧
      room2.roundStartTime = some 200 ∧
      room2.buzzOrder = [] ∧
      (∀ kp ∈ room2.players, kp.2.buzzTime = none) :=
  startRound_fresh_round "h" 200 demoRepressed "AAAAAA" _ rfl rfl rfl

/-- C6: for a room in the Active state, `stopRound` by the bound host only
flips the status to Stopped: `arrivals` (`buzzOrder`), every contestant
record (hence every `buzzTime`), `roundStartTime` (which thus stays
non-null) and the host binding are unchanged, the connection bindings are
unchanged, and every other room is unchanged. -/
theorem stopRound_frame (sid : String) (st : ServerState) (c : String) (room : Room)
    (hb : mapGet sid st.playerToRoom = some c)
    (hr : mapGet c st.rooms = some room)
    (hh : room.hostId = sid)
    (hA : room.isActive = true) :
    ∃ room2, mapGet c (stopRound sid st).1.rooms = some room2 ∧
      room2.isActive = false ∧
      room2.players = room.players ∧
      room2.buzzOrder = room.buzzOrder ∧
      room2.roundStartTime = room.roundStartTime ∧
      room2.hostId = room.hostId ∧
      (stopRound sid st).1.playerToRoom = st.playerToRoom ∧
      (∀ c2, c2 ≠ c → mapGet c2 (stopRound sid st).1.rooms = mapGet c2 st.rooms) := by
  have hstep : stopRound sid st =
      ({ st with rooms := mapSet c { room with isActive := false } st.rooms },
       [Event.roundStopped, Event.roomSnapshot (getRoomState { room with isActive := false })]) := by
    simp [stopRound, hb, hr, hh]
  rw [hstep]
  refine ⟨{ room with isActive := false }, mapGet_set_self _ _ _, rfl, rfl, rfl, rfl, ?_, rfl, ?_⟩
  · rw [hh]
  · exact fun c2 hne => mapGet_set_ne hne _ _

theorem stopRound_frame_witness :
    ∃ room2, mapGet "AAAAAA" (stopRound "h" demoBuzzed).1.rooms = some room2 ∧
      room2.isActive = false ∧
      room2.players = [("a", { id := "a", name := "Ann", buzzTime := some 10 })] ∧
      room2.buzzOrder = ["a"] ∧
      room2.roundStartTime = some 100 ∧
      room2.hostId = "h" ∧
      (stopRound "h" demoBuzzed).1.playerToRoom = demoBuzzed.playerToRoom ∧
      (∀ c2, c2 ≠ "AAAAAA" →
        mapGet c2 (stopRound "h" demoBuzzed).1.rooms = mapGet c2 demoBuzzed.rooms) :=
  stopRound_frame "h" demoBuzzed "AAAAAA" _ rfl rfl rfl rfl

/-- C7 (counterexample): the claim says a display name that is empty after
trimming is rejected with an error and adds no contestant. Running the
handler on the empty string shows the contestant IS added, with the empty
name stored verbatim, and that no error event is emitted: the `joinRoom`
handler never validates the name. -/
theorem joinRoom_accepts_empty_name :
    mapGet "p1" (playersAt "AAAAAA" (joinRoom "p1" "AAAAAA" "" demoRoom).1) =
      some { id := "p1", name := "", buzzTime := none } ∧
    (joinRoom "p1" "AAAAAA" "" demoRoom).2.all (fun e => !(isError e)) = true := by
  decide

/-- C7 (amended): the `joinRoom` handler performs no validation of the
display name: for every name, including one that is empty after trimming,
the join against an existing room succeeds, stores the contestant with the
name verbatim, and emits no error event. The only rejection `joinRoom`
produces is room-not-found. -/
theorem joinRoom_no_name_validation (sid : String) (rc : String) (playerName : String)
    (st : ServerState) (room : Room)
    (hr : mapGet (upper rc) st.rooms = some room) :
    ∃ room2, mapGet (upper rc) (joinRoom sid rc playerName st).1.rooms = some room2 ∧
      mapGet sid room2.players = some { id := sid, name := playerName, buzzTime := none } ∧
      ∀ e ∈ (joinRoom sid rc playerName st).2, isError e = false := by
  have hstep : joinRoom sid rc playerName st =
      ({ rooms := mapSet (upper rc)
            { room with players := mapSet sid ⟨sid, playerName, none⟩ room.players } st.rooms,
          playerToRoom := mapSet sid (upper rc) st.playerToRoom },
       [Event.roomJoined room.code playerName, Event.playerJoined ⟨sid, playerName, none⟩,
        Event.roomSnapshot (getRoomState
          { room with players := mapSet sid ⟨sid, playerName, none⟩ room.players })]) := by
    simp [joinRoom, hr]
  rw [hstep]
  refine ⟨_, mapGet_set_self _ _ _, mapGet_set_self _ _ _, ?_⟩
  intro e he
  simp at he
  rcases he with rfl | rfl | rfl <;> rfl

theorem joinRoom_no_name_validation_witness :
    ∃ room2, mapGet (upper "AAAAAA") (joinRoom "p9" "AAAAAA" "" demoRoom).1.rooms = some room2 ∧
      mapGet "p9" room2.players = some { id := "p9", name := "", buzzTime := none } ∧
      ∀ e ∈ (joinRoom "p9" "AAAAAA" "" demoRoom).2, isError e = false :=
  joinRoom_no_name_validation "p9" "AAAAAA" "" demoRoom _ rfl

/-- C8 (counterexample): the claim says host disconnection releases ALL
Connection Session bindings to the room. After host `h` of room `AAAAAA`
disconnects, the room is gone from the registry, but contestant `p1` is
still bound to `AAAAAA` in `playerToRoom`: the handler only deletes the
disconnecting host's own binding. -/
theorem host_disconnect_keeps_contestant_binding :
    mapGet "AAAAAA" (disconnect "h" demoJoined).1.rooms = none ∧
    mapGet "p1" (disconnect "h" demoJoined).1.playerToRoom = some "AAAAAA" := by
  decide

/-- C8 (amended): when the bound host disconnects, the room is removed
from the registry — a subsequent lookup of its code finds nothing — and
the host's own binding is released; the contestants' bindings are NOT
released and survive as stale entries. -/
theorem host_disconnect_removes_room_and_host_binding (hsid : String) (c : String)
    (st : ServerState) (room : Room)
    (hb : mapGet hsid st.playerToRoom = some c)
    (hr : mapGet c st.rooms = some room)
    (hh : room.hostId = hsid) :
    mapGet c (disconnect hsid st).1.rooms = none ∧
    mapGet hsid (disconnect hsid st).1.playerToRoom = none := by
  have hstep : disconnect hsid st =
      ({ rooms := mapDelete c st.rooms, playerToRoom := mapDelete hsid st.playerToRoom },
       [Event.errorMsg "Host left the room"]) := by
    simp [disconnect, hb, hr, hh]
  rw [hstep]
  exact ⟨mapGet_delete_self _ _, mapGet_delete_self _ _⟩

theorem host_disconnect_removes_room_and_host_binding_witness :
    mapGet "AAAAAA" (disconnect "h" demoJoined).1.rooms = none ∧
    mapGet "h" (disconnect "h" demoJoined).1.playerToRoom = none :=
  host_disconnect_removes_room_and_host_binding "h" "AAAAAA" demoJoined _ rfl rfl rfl

/-- C10: after `joinAsHost` rebinds a room's host to a new connection, a
later disconnect of the previous host connection (not a contestant, never
buzzed) is handled as a contestant departure: the room survives in the
registry with its contestant set, its `buzzOrder`, its active flag and its
round start time all unchanged, under the new host. -/
theorem old_host_disconnect_after_rebind_preserves_room
    (oldH newH rc : String) (st : ServerState) (room : Room)
    (hr : mapGet (upper rc) st.rooms = some room)
    (hbOld : mapGet oldH st.playerToRoom = some (upper rc))
    (hne : oldH ≠ newH)
    (hnp : mapGet oldH room.players = none)
    (hnb : oldH ∉ room.buzzOrder) :
    ∃ room2,
      mapGet (upper rc) (disconnect oldH (joinAsHost newH rc st).1).1.rooms = some room2 ∧
      room2.hostId = newH ∧
      room2.players = room.players ∧
      room2.buzzOrder = room.buzzOrder ∧
      room2.isActive = room.isActive ∧
      room2.roundStartTime = room.roundStartTime := by
  have h1 : (joinAsHost newH rc st).1 =
      { rooms := mapSet (upper rc) { room with hostId := newH } st.rooms,
        playerToRoom := mapSet newH (upper rc) st.playerToRoom } := by
    simp [joinAsHost, hr]
  rw [h1]
  have hb2 : mapGet oldH (mapSet newH (upper rc) st.playerToRoom) = some (upper rc) := by
    rw [mapGet_set_ne hne _ _]
    exact hbOld
  have hr2 : mapGet (upper rc) (mapSet (upper rc) { room with hostId := newH } st.rooms) =
      some { room with hostId := newH } := mapGet_set_self _ _ _
  have hhost : ¬ ({ room with hostId := newH } : Room).hostId = oldH := by
    simp
    exact fun he => hne he.symm
  have hdel : mapDelete oldH room.players = room.players := mapDelete_of_get_none hnp
  have hfil : room.buzzOrder.filter (fun i => i ≠ oldH) = room.buzzOrder :=
    filter_ne_of_not_mem hnb
  refine ⟨{ room with hostId := newH }, ?_, rfl, rfl, rfl, rfl, rfl⟩
  simp [disconnect, hb2, hr2, hhost, hdel, hfil, mapGet_set_self]
  exact fun a ha he => hnb (he ▸ ha)

theorem old_host_disconnect_after_rebind_preserves_room_witness :
    ∃ room2,
      mapGet (upper "AAAAAA")
        (disconnect "h" (joinAsHost "h2" "AAAAAA" demoBuzzed).1).1.rooms = some room2 ∧
      room2.hostId = "h2" ∧
      room2.players = [("a", { id := "a", name := "Ann", buzzTime := some 10 })] ∧
      room2.buzzOrder = ["a"] ∧
      room2.isActive = true ∧
      room2.roundStartTime = some 100 :=
  old_host_disconnect_after_rebind_preserves_room "h" "h2" "AAAAAA" demoBuzzed _ rfl rfl
    (by decide) rfl (by decide)

theorem ranksOf_append (l1 l2 : List Event) :
    ranksOf (l1 ++ l2) = ranksOf l1 ++ ranksOf l2 := by
  simp [ranksOf]

/-- One `pressBuzzer` call either rejects — returning the state unchanged
with no event — or accepts: it grants exactly the rank
`buzzOrder.length + 1`, the new length of `buzzOrder` after the append,
and leaves the connection bindings unchanged. -/
theorem pressBuzzer_step (sid : String) (t : Int) (st : ServerState) (c : String) (room : Room)
    (hb : mapGet sid st.playerToRoom = some c)
    (hr : mapGet c st.rooms = some room) :
    pressBuzzer sid t st = (st, []) ∨
    ((pressBuzzer sid t st).1.playerToRoom = st.playerToRoom ∧
     ranksOf (pressBuzzer sid t st).2 = [room.buzzOrder.length + 1] ∧
     ∃ room2, mapGet c (pressBuzzer sid t st).1.rooms = some room2 ∧
       room2.buzzOrder.length = room.buzzOrder.length + 1) := by
  cases hA : room.isActive with
  | false => exact Or.inl (by simp [pressBuzzer, hb, hr, hA])
  | true =>
    cases h0 : room.roundStartTime with
    | none => exact Or.inl (by simp [pressBuzzer, hb, hr, hA, h0])
    | some t0 =>
      cases hp : mapGet sid room.players with
      | none => exact Or.inl (by simp [pressBuzzer, hb, hr, hA, h0, hp])
      | some p =>
        cases hbt : p.buzzTime with
        | some u => exact Or.inl (by simp [pressBuzzer, hb, hr, hA, h0, hp, hbt])
        | none =>
          refine Or.inr ?_
          have hstep : pressBuzzer sid t st =
              ({ st with rooms := mapSet c { room with
                    players := mapSet sid { p with buzzTime := some (t - t0) } room.players
                    buzzOrder := room.buzzOrder ++ [sid] } st.rooms },
               [Event.buzzerPressed { p with buzzTime := some (t - t0) }
                  (room.buzzOrder ++ [sid]).length,
                Event.roomSnapshot (getRoomState { room with
                    players := mapSet sid { p with buzzTime := some (t - t0) } room.players
                    buzzOrder := room.buzzOrder ++ [sid] })]) := by
            simp [pressBuzzer, hb, hr, hA, h0, hp, hbt]
          rw [hstep]
          refine ⟨rfl, ?_, _, mapGet_set_self _ _ _, ?_⟩
          · simp [ranksOf]
          · simp

/-- C1 (amended): within a round segment that contains only signal
attempts (no joins, no disconnects), the ranks granted by the Arbitration
Engine are the consecutive integers starting just above the current
`buzzOrder` length: each accepted signal is granted exactly
`buzzOrder.length` after its append, so from a fresh round
(`buzzOrder = []`) the Nth accepted signal gets exactly N, and ranks never
repeat and never regress.  (The unamended claim — over a whole round's
lifetime including disconnects — is refuted by
the counterexample: a mid-round disconnect of a buzzed contestant compacts
`buzzOrder` and frees its rank for reuse.) -/
theorem pressRun_ranks_consecutive (ps : List (String × Int)) (st : ServerState)
    (c : String) (room : Room)
    (hr : mapGet c st.rooms = some room)
    (hb : ∀ q ∈ ps, mapGet q.1 st.playerToRoom = some c) :
    ∃ k room2, mapGet c (pressMany ps st).1.rooms = some room2 ∧
      room2.buzzOrder.length = room.buzzOrder.length + k ∧
      ranksOf (pressMany ps st).2 = consecFrom (room.buzzOrder.length + 1) k := by
  induction ps generalizing st room with
  | nil => exact ⟨0, room, hr, rfl, rfl⟩
  | cons q rest ih =>
    obtain ⟨sid, t⟩ := q
    have hbq : mapGet sid st.playerToRoom = some c := hb (sid, t) (by simp)
    have hbrest : ∀ q ∈ rest, mapGet q.1 st.playerToRoom = some c :=
      fun q hq => hb q (by simp [hq])
    rcases pressBuzzer_step sid t st c room hbq hr with hrej | hacc
    · have hred : pressMany ((sid, t) :: rest) st = pressMany rest st := by
        show ((pressMany rest (pressBuzzer sid t st).1).1,
              (pressBuzzer sid t st).2 ++ (pressMany rest (pressBuzzer sid t st).1).2) =
          pressMany rest st
        rw [hrej]
        rfl
      rw [hred]
      exact ih st room hr hbrest
    · obtain ⟨hpt, hrk, room1, hr1, hlen1⟩ := hacc
      have hbrest2 : ∀ q ∈ rest, mapGet q.1 (pressBuzzer sid t st).1.playerToRoom = some c := by
        intro q hq
        rw [hpt]
        exact hbrest q hq
      obtain ⟨k, room2, hget2, hlen2, hrank2⟩ := ih (pressBuzzer sid t st).1 room1 hr1 hbrest2
      have hunfold : pressMany ((sid, t) :: rest) st =
          ((pressMany rest (pressBuzzer sid t st).1).1,
           (pressBuzzer sid t st).2 ++ (pressMany rest (pressBuzzer sid t st).1).2) := rfl
      rw [hunfold]
      refine ⟨k + 1, room2, hget2, by omega, ?_⟩
      rw [ranksOf_append, hrk, hrank2, hlen1]
      rfl

theorem pressRun_ranks_consecutive_witness :
    ∃ k room2,
      mapGet "AAAAAA"
        (pressMany [("a", 110), ("b", 115), ("a", 120), ("c", 130)] demoRound).1.rooms =
        some room2 ∧
      room2.buzzOrder.length = 0 + k ∧
      ranksOf (pressMany [("a", 110), ("b", 115), ("a", 120), ("c", 130)] demoRound).2 =
        consecFrom (0 + 1) k :=
  pressRun_ranks_consecutive [("a", 110), ("b", 115), ("a", 120), ("c", 130)] demoRound
    "AAAAAA" _ rfl (by decide)

/-- C1 (counterexample): ranks can repeat within one round's lifetime. In
room `AAAAAA` with contestants `a`, `b`, `c` and a round started at 100:
`a` buzzes (rank 1), `b` buzzes (rank 2), `b` disconnects, `c` buzzes and
is granted rank 2 again — the same round (`roundStartTime` is still 100
throughout), yet rank 2 is issued twice and the third accepted signal of
the round gets rank 2, not 3. -/
theorem rank_repeats_after_disconnect :
    ranksOf demoAfterA.2 = [1] ∧
    ranksOf demoAfterB.2 = [2] ∧
    ranksOf demoAfterC.2 = [2] ∧
    roundStartAt "AAAAAA" demoAfterB.1 = some 100 ∧
    roundStartAt "AAAAAA" demoAfterC.1 = some 100 := by
  decide

/-! ## Room-code generation (C9) -/

theorem alphabet_nodup : alphabet.Nodup := by decide

theorem generateRoomCode_injective : Function.Injective generateRoomCode := by
  intro d1 d2 h
  unfold generateRoomCode at h
  have h2 : (List.ofFn fun i => alphabet.get (Fin.cast (by rfl) (d1 i))) =
      (List.ofFn fun i => alphabet.get (Fin.cast (by rfl) (d2 i))) := by
    injection h
  have h3 := List.ofFn_inj.mp h2
  funext i
  have h4 : alphabet.get (Fin.cast (by rfl) (d1 i)) =
      alphabet.get (Fin.cast (by rfl) (d2 i)) := congrFun h3 i
  have h5 := (List.Nodup.get_inj_iff alphabet_nodup).mp h4
  exact Fin.ext (congrArg Fin.val h5)

theorem card_draw_space : Fintype.card (Fin 6 → Fin 32) = 32 ^ 6 := by
  simp [Fintype.card_fun]

/-- If fewer codes are occupied than the whole 6-character space and the
random source eventually emits every draw vector, the retry loop finds a
draw whose code is unoccupied. -/
theorem exists_fresh_code (gen : Nat → Fin 6 → Fin 32) (occupied : Finset String)
    (hgen : Function.Surjective gen) (hcard : occupied.card < 32 ^ 6) :
    ∃ n, generateRoomCode (gen n) ∉ occupied := by
  by_contra hall
  push_neg at hall
  have hsub : (Finset.univ.image generateRoomCode : Finset String) ⊆ occupied := by
    intro s hs
    rcases Finset.mem_image.mp hs with ⟨d, _, rfl⟩
    rcases hgen d with ⟨n, rfl⟩
    exact hall n
  have hcard2 : (Finset.univ.image generateRoomCode : Finset String).card = 32 ^ 6 := by
    rw [Finset.card_image_of_injective _ generateRoomCode_injective, Finset.card_univ,
      card_draw_space]
  have hle := Finset.card_le_card hsub
  omega

/-- C9: whenever the set of live room codes is smaller than the full
6-character code space (32^6 codes) and the random draw stream is fair —
every draw vector is eventually produced, which holds with probability one
for `Math.random` — the collision-retry loop of `createRoom` terminates
(`exists_fresh_code` is exactly its termination) and the code it installs
collides with no live room: looking it up in the registry finds nothing,
so a duplicate is never installed. -/
theorem createRoom_code_fresh (gen : Nat → Fin 6 → Fin 32) (st : ServerState)
    (hgen : Function.Surjective gen) (hcard : (liveCodes st).card < 32 ^ 6) :
    freshCode gen (liveCodes st) (exists_fresh_code gen (liveCodes st) hgen hcard) ∉
      liveCodes st ∧
    mapGet (freshCode gen (liveCodes st) (exists_fresh_code gen (liveCodes st) hgen hcard))
      st.rooms = none := by
  have h1 := Nat.find_spec (exists_fresh_code gen (liveCodes st) hgen hcard)
  refine ⟨h1, ?_⟩
  apply mapGet_eq_none_of_not_mem_keys
  intro hmem
  exact h1 (List.mem_toFinset.mpr hmem)

theorem genEnum_surjective : Function.Surjective genEnum := by
  intro v
  refine ⟨(finFunctionFinEquiv v).val, ?_⟩
  unfold genEnum
  have hlt : ((finFunctionFinEquiv v) : Fin (32 ^ 6)).val < 32 ^ 6 :=
    (finFunctionFinEquiv v).isLt
  have h : ((finFunctionFinEquiv v) : Fin (32 ^ 6)).val % 32 ^ 6 =
      ((finFunctionFinEquiv v) : Fin (32 ^ 6)).val := Nat.mod_eq_of_lt hlt
  simp only [h, Fin.eta]
  exact Equiv.symm_apply_apply _ _

theorem createRoom_code_fresh_witness :
    freshCode genEnum (liveCodes demoSt0)
      (exists_fresh_code genEnum (liveCodes demoSt0) genEnum_surjective (by decide)) ∉
      liveCodes demoSt0 ∧
    mapGet (freshCode genEnum (liveCodes demoSt0)
      (exists_fresh_code genEnum (liveCodes demoSt0) genEnum_surjective (by decide)))
      demoSt0.rooms = none :=
  createRoom_code_fresh genEnum demoSt0 genEnum_surjective (by decide)

theorem stAll_set (P : Room → Prop) {rs : List (String × Room)} {c : String} {room2 : Room}
    (h : ∀ c0 r0, mapGet c0 rs = some r0 → P r0) (h2 : P room2) :
    ∀ c0 r0, mapGet c0 (mapSet c room2 rs) = some r0 → P r0 := by
  intro c0 r0 hget
  by_cases hc : c0 = c
  · subst hc
    rw [mapGet_set_self] at hget
    cases hget
    exact h2
  · rw [mapGet_set_ne hc] at hget
    exact h c0 r0 hget

theorem stAll_delete (P : Room → Prop) {rs : List (String × Room)} {c : String}
    (h : ∀ c0 r0, mapGet c0 rs = some r0 → P r0) :
    ∀ c0 r0, mapGet c0 (mapDelete c rs) = some r0 → P r0 := by
  intro c0 r0 hget
  by_cases hc : c0 = c
  · subst hc
    rw [mapGet_delete_self] at hget
    cases hget
  · rw [mapGet_delete_ne hc] at hget
    exact h c0 r0 hget

theorem roomInv_new (code sid : String) :
    RoomInv { id := code, code := code, hostId := sid, players := [],
              isActive := false, roundStartTime := none, buzzOrder := [] } := by
  refine ⟨List.nodup_nil, ?_, by simp, ?_⟩
  · intro s hs
    cases hs
  · intro s p hp
    simp [mapGet] at hp

theorem stInv_create (sid code : String) (st : ServerState) (h : StAll RoomInv st) :
    StAll RoomInv (createRoom sid code st).1 :=
  stAll_set RoomInv h (roomInv_new code sid)

theorem stInv_joinAsHost (sid rc : String) (st : ServerState) (h : StAll RoomInv st) :
    StAll RoomInv (joinAsHost sid rc st).1 := by
  cases hr : mapGet (upper rc) st.rooms with
  | none =>
    have hstep : (joinAsHost sid rc st).1 = st := by simp [joinAsHost, hr]
    rw [hstep]
    exact h
  | some room =>
    have hstep : (joinAsHost sid rc st).1 =
        { rooms := mapSet (upper rc) { room with hostId := sid } st.rooms,
          playerToRoom := mapSet sid (upper rc) st.playerToRoom } := by
      simp [joinAsHost, hr]
    rw [hstep]
    exact stAll_set RoomInv h
      (show RoomInv { room with hostId := sid } from h (upper rc) room hr)

theorem roomInv_join (room : Room) (sid pname : String) (hInv : RoomInv room)
    (hg : sid ∉ room.buzzOrder) :
    RoomInv { room with players := mapSet sid ⟨sid, pname, none⟩ room.players } := by
  obtain ⟨h1, h2, h3, h4⟩ := hInv
  refine ⟨h1, ?_, mapSet_keys_nodup _ _ h3, ?_⟩
  · intro s hs
    exact mapGet_set_isSome _ _ (h2 s hs)
  · intro s p hp
    by_cases hss : s = sid
    · subst hss
      rw [mapGet_set_self] at hp
      cases hp
      simp [hg]
    · rw [mapGet_set_ne hss] at hp
      exact h4 s p hp

theorem stInv_joinRoom (sid rc pname : String) (st : ServerState) (h : StAll RoomInv st)
    (hg : ∀ room, mapGet (upper rc) st.rooms = some room → sid ∉ room.buzzOrder) :
    StAll RoomInv (joinRoom sid rc pname st).1 := by
  cases hr : mapGet (upper rc) st.rooms with
  | none =>
    have hstep : (joinRoom sid rc pname st).1 = st := by simp [joinRoom, hr]
    rw [hstep]
    exact h
  | some room =>
    have hstep : (joinRoom sid rc pname st).1 =
        { rooms := mapSet (upper rc)
            { room with players := mapSet sid ⟨sid, pname, none⟩ room.players } st.rooms,
          playerToRoom := mapSet sid (upper rc) st.playerToRoom } := by
      simp [joinRoom, hr]
    rw [hstep]
    exact stAll_set RoomInv h (roomInv_join room sid pname (h _ _ hr) (hg room hr))

theorem roomInv_of_cleared (room2 : Room) (ps : List (String × Player))
    (hbo : room2.buzzOrder = []) (hps : room2.players = clearBuzzTimes ps)
    (hknd : (ps.map Prod.fst).Nodup) : RoomInv room2 := by
  refine ⟨?_, ?_, ?_, ?_⟩
  · rw [hbo]
    exact List.nodup_nil
  · intro s hs
    rw [hbo] at hs
    cases hs
  · rw [hps, clearBuzzTimes_keys]
    exact hknd
  · intro s p hpp
    rw [hps, mapGet_clear] at hpp
    cases hq : mapGet s ps with
    | none =>
      rw [hq] at hpp
      cases hpp
    | some q =>
      rw [hq] at hpp
      cases hpp
      rw [hbo]
      simp

theorem stInv_startRound (sid : String) (now : Int) (st : ServerState) (h : StAll RoomInv st) :
    StAll RoomInv (startRound sid now st).1 := by
  cases hb : mapGet sid st.playerToRoom with
  | none =>
    have hstep : (startRound sid now st).1 = st := by simp [startRound, hb]
    rw [hstep]
    exact h
  | some c =>
    cases hr : mapGet c st.rooms with
    | none =>
      have hstep : (startRound sid now st).1 = st := by simp [startRound, hb, hr]
      rw [hstep]
      exact h
    | some room =>
      by_cases hh : room.hostId = sid
      · have hstep : (startRound sid now st).1 =
            { st with rooms := mapSet c { room with
                isActive := true
                roundStartTime := some now
                buzzOrder := []
                players := clearBuzzTimes room.players } st.rooms } := by
          simp [startRound, hb, hr, hh]
        rw [hstep]
        exact stAll_set RoomInv h
          (roomInv_of_cleared _ room.players rfl rfl (h _ _ hr).2.2.1)
      · have hstep : (startRound sid now st).1 = st := by simp [startRound, hb, hr, hh]
        rw [hstep]
        exact h

theorem stInv_stopRound (sid : String) (st : ServerState) (h : StAll RoomInv st) :
    StAll RoomInv (stopRound sid st).1 := by
  cases hb : mapGet sid st.playerToRoom with
  | none =>
    have hstep : (stopRound sid st).1 = st := by simp [stopRound, hb]
    rw [hstep]
    exact h
  | some c =>
    cases hr : mapGet c st.rooms with
    | none =>
      have hstep : (stopRound sid st).1 = st := by simp [stopRound, hb, hr]
      rw [hstep]
      exact h
    | some room =>
      by_cases hh : room.hostId = sid
      · have hstep : (stopRound sid st).1 =
            { st with rooms := mapSet c { room with isActive := false } st.rooms } := by
          simp [stopRound, hb, hr, hh]
        rw [hstep]
        exact stAll_set RoomInv h
          (show RoomInv { room with isActive := false } from h c room hr)
      · have hstep : (stopRound sid st).1 = st := by simp [stopRound, hb, hr, hh]
        rw [hstep]
        exact h

theorem stInv_resetRound (sid : String) (st : ServerState) (h : StAll RoomInv st) :
    StAll RoomInv (resetRound sid st).1 := by
  cases hb : mapGet sid st.playerToRoom with
  | none =>
    have hstep : (resetRound sid st).1 = st := by simp [resetRound, hb]
    rw [hstep]
    exact h
  | some c =>
    cases hr : mapGet c st.rooms with
    | none =>
      have hstep : (resetRound sid st).1 = st := by simp [resetRound, hb, hr]
      rw [hstep]
      exact h
    | some room =>
      by_cases hh : room.hostId = sid
      · have hstep : (resetRound sid st).1 =
            { st with rooms := mapSet c { room with
                isActive := false
                roundStartTime := none
                buzzOrder := []
                players := clearBuzzTimes room.players } st.rooms } := by
          simp [resetRound, hb, hr, hh]
        rw [hstep]
        exact stAll_set RoomInv h
          (roomInv_of_cleared _ room.players rfl rfl (h _ _ hr).2.2.1)
      · have hstep : (resetRound sid st).1 = st := by simp [resetRound, hb, hr, hh]
        rw [hstep]
        exact h

theorem roomInv_press (room : Room) (sid : String) (p : Player) (tv : Int)
    (hInv : RoomInv room)
    (hp : mapGet sid room.players = some p)
    (hbt : p.buzzTime = none) :
    RoomInv { room with
      players := mapSet sid { p with buzzTime := some tv } room.players
      buzzOrder := room.buzzOrder ++ [sid] } := by
  obtain ⟨h1, h2, h3, h4⟩ := hInv
  have hnot : sid ∉ room.buzzOrder := by
    intro hmem
    exact (h4 sid p hp).mpr hmem hbt
  refine ⟨?_, ?_, mapSet_keys_nodup _ _ h3, ?_⟩
  · simp [List.nodup_append, h1, hnot]
  · intro s hs
    rcases List.mem_append.mp hs with hs | hs
    · exact mapGet_set_isSome _ _ (h2 s hs)
    · have hseq : s = sid := by simpa using hs
      subst hseq
      rw [mapGet_set_self]
      rfl
  · intro s q hq
    by_cases hss : s = sid
    · subst hss
      rw [mapGet_set_self] at hq
      cases hq
      simp
    · rw [mapGet_set_ne hss] at hq
      have hiff := h4 s q hq
      constructor
      · intro hne2
        exact List.mem_append.mpr (Or.inl (hiff.mp hne2))
      · intro hmem
        rcases List.mem_append.mp hmem with hmem | hmem
        · exact hiff.mpr hmem
        · exact absurd (by simpa using hmem) hss

theorem stInv_pressBuzzer (sid : String) (now : Int) (st : ServerState) (h : StAll RoomInv st) :
    StAll RoomInv (pressBuzzer sid now st).1 := by
  cases hb : mapGet sid st.playerToRoom with
  | none =>
    have hstep : (pressBuzzer sid now st).1 = st := by simp [pressBuzzer, hb]
    rw [hstep]
    exact h
  | some c =>
    cases hr : mapGet c st.rooms with
    | none =>
      have hstep : (pressBuzzer sid now st).1 = st := by simp [pressBuzzer, hb, hr]
      rw [hstep]
      exact h
    | some room =>
      cases hA : room.isActive with
      | false =>
        have hstep : (pressBuzzer sid now st).1 = st := by simp [pressBuzzer, hb, hr, hA]
        rw [hstep]
        exact h
      | true =>
        cases h0 : room.roundStartTime with
        | none =>
          have hstep : (pressBuzzer sid now st).1 = st := by simp [pressBuzzer, hb, hr, hA, h0]
          rw [hstep]
          exact h
        | some t0 =>
          cases hp : mapGet sid room.players with
          | none =>
            have hstep : (pressBuzzer sid now st).1 = st := by
              simp [pressBuzzer, hb, hr, hA, h0, hp]
            rw [hstep]
            exact h
          | some p =>
            cases hbt : p.buzzTime with
            | some u =>
              have hstep : (pressBuzzer sid now st).1 = st := by
                simp [pressBuzzer, hb, hr, hA, h0, hp, hbt]
              rw [hstep]
              exact h
            | none =>
              have hstep : (pressBuzzer sid now st).1 =
                  { st with rooms := mapSet c { room with
                      players := mapSet sid { p with buzzTime := some (now - t0) } room.players
                      buzzOrder := room.buzzOrder ++ [sid] } st.rooms } := by
                simp [pressBuzzer, hb, hr, hA, h0, hp, hbt]
              rw [hstep]
              exact stAll_set RoomInv h (roomInv_press room sid p _ (h _ _ hr) hp hbt)

theorem roomInv_disc (room : Room) (sid : String) (hInv : RoomInv room) :
    RoomInv { room with
      players := mapDelete sid room.players
      buzzOrder := room.buzzOrder.filter (fun i => i ≠ sid) } := by
  obtain ⟨h1, h2, h3, h4⟩ := hInv
  refine ⟨List.Nodup.filter _ h1, ?_, mapDelete_keys_nodup _ h3, ?_⟩
  · intro s hs
    have hs2 := List.mem_filter.mp hs
    have hne : s ≠ sid := by simpa using hs2.2
    rw [mapGet_delete_ne hne]
    exact h2 s hs2.1
  · intro s q hq
    have hne : s ≠ sid := by
      intro he
      subst he
      rw [mapGet_delete_self] at hq
      cases hq
    rw [mapGet_delete_ne hne] at hq
    have hiff := h4 s q hq
    constructor
    · intro hne2
      exact List.mem_filter.mpr ⟨hiff.mp hne2, by simpa using hne⟩
    · intro hmem
      exact hiff.mpr (List.mem_filter.mp hmem).1

theorem stInv_disconnect (sid : String) (st : ServerState) (h : StAll RoomInv st) :
    StAll RoomInv (disconnect sid st).1 := by
  cases hb : mapGet sid st.playerToRoom with
  | none =>
    have hstep : (disconnect sid st).1 = st := by simp [disconnect, hb]
    rw [hstep]
    exact h
  | some c =>
    cases hr : mapGet c st.rooms with
    | none =>
      have hstep : (disconnect sid st).1 = st := by simp [disconnect, hb, hr]
      rw [hstep]
      exact h
    | some room =>
      by_cases hh : room.hostId = sid
      · have hstep : (disconnect sid st).1 =
            { rooms := mapDelete c st.rooms,
              playerToRoom := mapDelete sid st.playerToRoom } := by
          simp [disconnect, hb, hr, hh]
        rw [hstep]
        exact stAll_delete RoomInv h
      · have hstep : (disconnect sid st).1 =
            { rooms := mapSet c { room with
                players := mapDelete sid room.players
                buzzOrder := room.buzzOrder.filter (fun i => i ≠ sid) } st.rooms,
              playerToRoom := mapDelete sid st.playerToRoom } := by
          simp [disconnect, hb, hr, hh]
        rw [hstep]
        exact stAll_set RoomInv h (roomInv_disc room sid (h _ _ hr))

theorem reachableNR_stInv (st : ServerState) (h : ReachableNR st) : StAll RoomInv st := by
  induction h with
  | init =>
    intro c room hget
    simp [mapGet] at hget
  | create sid code st hst hfresh ih => exact stInv_create sid code st ih
  | joinHost sid rc st hst ih => exact stInv_joinAsHost sid rc st ih
  | join sid rc pname st hst hg ih => exact stInv_joinRoom sid rc pname st ih hg
  | start sid now st hst ih => exact stInv_startRound sid now st ih
  | stop sid st hst ih => exact stInv_stopRound sid st ih
  | reset sid st hst ih => exact stInv_resetRound sid st ih
  | press sid now st hst ih => exact stInv_pressBuzzer sid now st ih
  | disc sid st hst ih => exact stInv_disconnect sid st ih

theorem roomMem_of_roomInv {room : Room} (h : RoomInv room) : RoomMem room := h.2.1

theorem roomMem_new (code sid : String) :
    RoomMem { id := code, code := code, hostId := sid, players := [],
              isActive := false, roundStartTime := none, buzzOrder := [] } := by
  intro s hs
  cases hs

theorem stMem_create (sid code : String) (st : ServerState) (h : StAll RoomMem st) :
    StAll RoomMem (createRoom sid code st).1 :=
  stAll_set RoomMem h (roomMem_new code sid)

theorem stMem_joinAsHost (sid rc : String) (st : ServerState) (h : StAll RoomMem st) :
    StAll RoomMem (joinAsHost sid rc st).1 := by
  cases hr : mapGet (upper rc) st.rooms with
  | none =>
    have hstep : (joinAsHost sid rc st).1 = st := by simp [joinAsHost, hr]
    rw [hstep]
    exact h
  | some room =>
    have hstep : (joinAsHost sid rc st).1 =
        { rooms := mapSet (upper rc) { room with hostId := sid } st.rooms,
          playerToRoom := mapSet sid (upper rc) st.playerToRoom } := by
      simp [joinAsHost, hr]
    rw [hstep]
    exact stAll_set RoomMem h
      (show RoomMem { room with hostId := sid } from h (upper rc) room hr)

theorem roomMem_join (room : Room) (sid pname : String) (hM : RoomMem room) :
    RoomMem { room with players := mapSet sid ⟨sid, pname, none⟩ room.players } := by
  intro s hs
  exact mapGet_set_isSome _ _ (hM s hs)

theorem stMem_joinRoom (sid rc pname : String) (st : ServerState) (h : StAll RoomMem st) :
    StAll RoomMem (joinRoom sid rc pname st).1 := by
  cases hr : mapGet (upper rc) st.rooms with
  | none =>
    have hstep : (joinRoom sid rc pname st).1 = st := by simp [joinRoom, hr]
    rw [hstep]
    exact h
  | some room =>
    have hstep : (joinRoom sid rc pname st).1 =
        { rooms := mapSet (upper rc)
            { room with players := mapSet sid ⟨sid, pname, none⟩ room.players } st.rooms,
          playerToRoom := mapSet sid (upper rc) st.playerToRoom } := by
      simp [joinRoom, hr]
    rw [hstep]
    exact stAll_set RoomMem h (roomMem_join room sid pname (h _ _ hr))

theorem roomMem_of_empty_order (room2 : Room) (hbo : room2.buzzOrder = []) :
    RoomMem room2 := by
  intro s hs
  rw [hbo] at hs
  cases hs

theorem stMem_startRound (sid : String) (now : Int) (st : ServerState) (h : StAll RoomMem st) :
    StAll RoomMem (startRound sid now st).1 := by
  cases hb : mapGet sid st.playerToRoom with
  | none =>
    have hstep : (startRound sid now st).1 = st := by simp [startRound, hb]
    rw [hstep]
    exact h
  | some c =>
    cases hr : mapGet c st.rooms with
    | none =>
      have hstep : (startRound sid now st).1 = st := by simp [startRound, hb, hr]
      rw [hstep]
      exact h
    | some room =>
      by_cases hh : room.hostId = sid
      · have hstep : (startRound sid now st).1 =
            { st with rooms := mapSet c { room with
                isActive := true
                roundStartTime := some now
                buzzOrder := []
                players := clearBuzzTimes room.players } st.rooms } := by
          simp [startRound, hb, hr, hh]
        rw [hstep]
        exact stAll_set RoomMem h (roomMem_of_empty_order _ rfl)
      · have hstep : (startRound sid now st).1 = st := by simp [startRound, hb, hr, hh]
        rw [hstep]
        exact h

theorem stMem_stopRound (sid : String) (st : ServerState) (h : StAll RoomMem st) :
    StAll RoomMem (stopRound sid st).1 := by
  cases hb : mapGet sid st.playerToRoom with
  | none =>
    have hstep : (stopRound sid st).1 = st := by simp [stopRound, hb]
    rw [hstep]
    exact h
  | some c =>
    cases hr : mapGet c st.rooms with
    | none =>
      have hstep : (stopRound sid st).1 = st := by simp [stopRound, hb, hr]
      rw [hstep]
      exact h
    | some room =>
      by_cases hh : room.hostId = sid
      · have hstep : (stopRound sid st).1 =
            { st with rooms := mapSet c { room with isActive := false } st.rooms } := by
          simp [stopRound, hb, hr, hh]
        rw [hstep]
        exact stAll_set RoomMem h
          (show RoomMem { room with isActive := false } from h c room hr)
      · have hstep : (stopRound sid st).1 = st := by simp [stopRound, hb, hr, hh]
        rw [hstep]
        exact h

theorem stMem_resetRound (sid : String) (st : ServerState) (h : StAll RoomMem st) :
    StAll RoomMem (resetRound sid st).1 := by
  cases hb : mapGet sid st.playerToRoom with
  | none =>
    have hstep : (resetRound sid st).1 = st := by simp [resetRound, hb]
    rw [hstep]
    exact h
  | some c =>
    cases hr : mapGet c st.rooms with
    | none =>
      have hstep : (resetRound sid st).1 = st := by simp [resetRound, hb, hr]
      rw [hstep]
      exact h
    | some room =>
      by_cases hh : room.hostId = sid
      · have hstep : (resetRound sid st).1 =
            { st with rooms := mapSet c { room with
                isActive := false
                roundStartTime := none
                buzzOrder := []
                players := clearBuzzTimes room.players } st.rooms } := by
          simp [resetRound, hb, hr, hh]
        rw [hstep]
        exact stAll_set RoomMem h (roomMem_of_empty_order _ rfl)
      · have hstep : (resetRound sid st).1 = st := by simp [resetRound, hb, hr, hh]
        rw [hstep]
        exact h

theorem roomMem_press (room : Room) (sid : String) (p : Player) (tv : Int)
    (hM : RoomMem room) (hp : mapGet sid room.players = some p) :
    RoomMem { room with
      players := mapSet sid { p with buzzTime := some tv } room.players
      buzzOrder := room.buzzOrder ++ [sid] } := by
  intro s hs
  rcases List.mem_append.mp hs with hs | hs
  · exact mapGet_set_isSome _ _ (hM s hs)
  · have hseq : s = sid := by simpa using hs
    subst hseq
    rw [mapGet_set_self]
    rfl

theorem stMem_pressBuzzer (sid : String) (now : Int) (st : ServerState) (h : StAll RoomMem st) :
    StAll RoomMem (pressBuzzer sid now st).1 := by
  cases hb : mapGet sid st.playerToRoom with
  | none =>
    have hstep : (pressBuzzer sid now st).1 = st := by simp [pressBuzzer, hb]
    rw [hstep]
    exact h
  | some c =>
    cases hr : mapGet c st.rooms with
    | none =>
      have hstep : (pressBuzzer sid now st).1 = st := by simp [pressBuzzer, hb, hr]
      rw [hstep]
      exact h
    | some room =>
      cases hA : room.isActive with
      | false =>
        have hstep : (pressBuzzer sid now st).1 = st := by simp [pressBuzzer, hb, hr, hA]
        rw [hstep]
        exact h
      | true =>
        cases h0 : room.roundStartTime with
        | none =>
          have hstep : (pressBuzzer sid now st).1 = st := by
            simp [pressBuzzer, hb, hr, hA, h0]
          rw [hstep]
          exact h
        | some t0 =>
          cases hp : mapGet sid room.players with
          | none =>
            have hstep : (pressBuzzer sid now st).1 = st := by
              simp [pressBuzzer, hb, hr, hA, h0, hp]
            rw [hstep]
            exact h
          | some p =>
            cases hbt : p.buzzTime with
            | some u =>
              have hstep : (pressBuzzer sid now st).1 = st := by
                simp [pressBuzzer, hb, hr, hA, h0, hp, hbt]
              rw [hstep]
              exact h
            | none =>
              have hstep : (pressBuzzer sid now st).1 =
                  { st with rooms := mapSet c { room with
                      players := mapSet sid { p with buzzTime := some (now - t0) } room.players
                      buzzOrder := room.buzzOrder ++ [sid] } st.rooms } := by
                simp [pressBuzzer, hb, hr, hA, h0, hp, hbt]
              rw [hstep]
              exact stAll_set RoomMem h (roomMem_press room sid p _ (h _ _ hr) hp)

theorem roomMem_disc (room : Room) (sid : String) (hM : RoomMem room) :
    RoomMem { room with
      players := mapDelete sid room.players
      buzzOrder := room.buzzOrder.filter (fun i => i ≠ sid) } := by
  intro s hs
  have hs2 := List.mem_filter.mp hs
  have hne : s ≠ sid := by simpa using hs2.2
  rw [mapGet_delete_ne hne]
  exact hM s hs2.1

theorem stMem_disconnect (sid : String) (st : ServerState) (h : StAll RoomMem st) :
    StAll RoomMem (disconnect sid st).1 := by
  cases hb : mapGet sid st.playerToRoom with
  | none =>
    have hstep : (disconnect sid st).1 = st := by simp [disconnect, hb]
    rw [hstep]
    exact h
  | some c =>
    cases hr : mapGet c st.rooms with
    | none =>
      have hstep : (disconnect sid st).1 = st := by simp [disconnect, hb, hr]
      rw [hstep]
      exact h
    | some room =>
      by_cases hh : room.hostId = sid
      · have hstep : (disconnect sid st).1 =
            { rooms := mapDelete c st.rooms,
              playerToRoom := mapDelete sid st.playerToRoom } := by
          simp [disconnect, hb, hr, hh]
        rw [hstep]
        exact stAll_delete RoomMem h
      · have hstep : (disconnect sid st).1 =
            { rooms := mapSet c { room with
                players := mapDelete sid room.players
                buzzOrder := room.buzzOrder.filter (fun i => i ≠ sid) } st.rooms,
              playerToRoom := mapDelete sid st.playerToRoom } := by
          simp [disconnect, hb, hr, hh]
        rw [hstep]
        exact stAll_set RoomMem h (roomMem_disc room sid (h _ _ hr))

theorem reachable_stMem (st : ServerState) (h : Reachable st) : StAll RoomMem st := by
  induction h with
  | init =>
    intro c room hget
    simp [mapGet] at hget
  | create sid code st hst hfresh ih => exact stMem_create sid code st ih
  | joinHost sid rc st hst ih => exact stMem_joinAsHost sid rc st ih
  | join sid rc pname st hst ih => exact stMem_joinRoom sid rc pname st ih
  | start sid now st hst ih => exact stMem_startRound sid now st ih
  | stop sid st hst ih => exact stMem_stopRound sid st ih
  | reset sid st hst ih => exact stMem_resetRound sid st ih
  | press sid now st hst ih => exact stMem_pressBuzzer sid now st ih
  | disc sid st hst ih => exact stMem_disconnect sid st ih

theorem roomInv_length_le (room : Room) (h : RoomInv room) :
    room.buzzOrder.length ≤ room.players.length := by
  obtain ⟨hnd, hmem, hknd, hiff⟩ := h
  have hsub : room.buzzOrder.toFinset ⊆ (room.players.map Prod.fst).toFinset := by
    intro x hx
    rw [List.mem_toFinset] at hx ⊢
    exact mem_keys_of_mapGet_isSome (hmem x hx)
  calc room.buzzOrder.length
      = room.buzzOrder.toFinset.card := (List.toFinset_card_of_nodup hnd).symm
    _ ≤ (room.players.map Prod.fst).toFinset.card := Finset.card_le_card hsub
    _ ≤ (room.players.map Prod.fst).length := List.toFinset_card_le _
    _ = room.players.length := by simp

/-- C2: for every reachable room state, every entry of `arrivals`
(`buzzOrder`) resolves to a current contestant; and on runs in which no
contestant re-issues `joinRoom` while present in `buzzOrder`, `buzzOrder`
additionally has no duplicates and `buzzOrder.length ≤ players.size`.
(The no-duplicates and size-bound parts do NOT hold on all reachable
states: see the re-join counterexample.) -/
theorem buzzOrder_invariants (st : ServerState) :
    (Reachable st → ∀ c room, mapGet c st.rooms = some room →
      ∀ sid ∈ room.buzzOrder, (mapGet sid room.players).isSome = true) ∧
    (ReachableNR st → ∀ c room, mapGet c st.rooms = some room →
      room.buzzOrder.Nodup ∧ room.buzzOrder.length ≤ room.players.length) := by
  constructor
  · intro h c room hget
    exact reachable_stMem st h c room hget
  · intro h c room hget
    have hinv := reachableNR_stInv st h c room hget
    exact ⟨hinv.1, roomInv_length_le room hinv⟩

/-- C3 (amended): on every run in which no connection re-issues `joinRoom`
while its identifier is in the target room's `buzzOrder`, a contestant's
`buzzTime` is non-null exactly when its connection identifier is in
`buzzOrder` — i.e. every handler preserves the biconditional, except that
`joinRoom` of a connection already in `buzzOrder` breaks it (see the
counterexample). -/
theorem buzzTime_iff_buzzOrder (st : ServerState) (h : ReachableNR st) :
    ∀ c room, mapGet c st.rooms = some room →
      ∀ sid p, mapGet sid room.players = some p →
        (p.buzzTime ≠ none ↔ sid ∈ room.buzzOrder) := by
  intro c room hget sid p hp
  exact (reachableNR_stInv st h c room hget).2.2.2 sid p hp

/-- C2 (counterexample): a reachable state whose `buzzOrder` has a
duplicate and is longer than the contestant map. Reached by: create room
`AAAAAA`, contestant `a` joins, round starts, `a` buzzes, `a` re-issues
`joinRoom` (resetting its `buzzTime` to null while staying in
`buzzOrder`), `a` buzzes again. -/
theorem buzzOrder_duplicate_after_rejoin :
    Reachable demoRepressed ∧
    buzzOrderAt "AAAAAA" demoRepressed = ["a", "a"] ∧
    ¬ (buzzOrderAt "AAAAAA" demoRepressed).Nodup ∧
    (playersAt "AAAAAA" demoRepressed).length < (buzzOrderAt "AAAAAA" demoRepressed).length := by
  refine ⟨?_, by decide, by decide, by decide⟩
  exact Reachable.press "a" 140 demoRejoined
    (Reachable.join "a" "AAAAAA" "Ann" demoBuzzed
      (Reachable.press "a" 110 _
        (Reachable.start "h" 100 _
          (Reachable.join "a" "AAAAAA" "Ann" demoRoom
            (Reachable.create "h" "AAAAAA" demoSt0 Reachable.init rfl)))))

/-- C3 (counterexample): a reachable state violating the biconditional:
after `a` buzzed and then re-issued `joinRoom`, `a`'s stored `buzzTime` is
null yet `a` is still listed in `buzzOrder`. -/
theorem buzzTime_iff_fails_after_rejoin :
    Reachable demoRejoined ∧
    mapGet "a" (playersAt "AAAAAA" demoRejoined) =
      some { id := "a", name := "Ann", buzzTime := none } ∧
    "a" ∈ buzzOrderAt "AAAAAA" demoRejoined := by
  refine ⟨?_, by decide, by decide⟩
  exact Reachable.join "a" "AAAAAA" "Ann" demoBuzzed
    (Reachable.press "a" 110 _
      (Reachable.start "h" 100 _
        (Reachable.join "a" "AAAAAA" "Ann" demoRoom
          (Reachable.create "h" "AAAAAA" demoSt0 Reachable.init rfl))))

theorem guard_of_buzzOrderAt {sid rc : String} {st : ServerState}
    (h : sid ∉ buzzOrderAt (upper rc) st) :
    ∀ room, mapGet (upper rc) st.rooms = some room → sid ∉ room.buzzOrder := by
  intro room hmem hsid
  apply h
  unfold buzzOrderAt
  rw [hmem]
  exact hsid

theorem reach_demoBuzzed : Reachable demoBuzzed :=
  Reachable.press "a" 110 _
    (Reachable.start "h" 100 _
      (Reachable.join "a" "AAAAAA" "Ann" demoRoom
        (Reachable.create "h" "AAAAAA" demoSt0 Reachable.init rfl)))

theorem reachNR_demoBuzzed : ReachableNR demoBuzzed :=
  ReachableNR.press "a" 110 _
    (ReachableNR.start "h" 100 _
      (ReachableNR.join "a" "AAAAAA" "Ann" demoRoom
        (ReachableNR.create "h" "AAAAAA" demoSt0 ReachableNR.init rfl)
        (guard_of_buzzOrderAt (by decide))))

theorem buzzOrder_invariants_witness :
    (mapGet "a"
        [("a", ({ id := "a", name := "Ann", buzzTime := some 10 } : Player))]).isSome = true ∧
    (["a"] : List String).Nodup ∧
    (["a"] : List String).length ≤
      [("a", ({ id := "a", name := "Ann", buzzTime := some 10 } : Player))].length :=
  ⟨(buzzOrder_invariants demoBuzzed).1 reach_demoBuzzed "AAAAAA" _ rfl "a" (by decide),
   (buzzOrder_invariants demoBuzzed).2 reachNR_demoBuzzed "AAAAAA" _ rfl⟩

theorem buzzTime_iff_buzzOrder_witness :
    ({ id := "a", name := "Ann", buzzTime := some 10 } : Player).buzzTime ≠ none ↔
      "a" ∈ (["a"] : List String) :=
  buzzTime_iff_buzzOrder demoBuzzed reachNR_demoBuzzed "AAAAAA" _ rfl "a" _ rfl
